import Mathlib

/-
Formal model of the scoring and recommendation engine in
futurproctor/proctoring/services/simple_scoring.py (class SimpleScoringService).

Conventions of the embedding:
  * Python floats are modelled as exact rationals.
  * Django rows are modelled as plain records; a list of records stands for the
    set of rows a queryset returns, in iteration order.
  * Python list.sort and sorted are stable; they are modelled with
    List.insertionSort, which is stable for the sort relations used here.
  * Operations that can raise are modelled with Option or Except; a `none` or
    `.error` result stands for an uncaught Python exception.
-/

/-- Modelled from the spec: the CompetencyScore row (section 3 of the spec).
The service imports CompetencyScore from proctoring.models, but the given
models.py does not declare it, so the fields follow the spec: raw score,
max score, percentage, performance level and the two flags.  `id` stands for
the database primary key of the row. -/
structure CompetencyScore where
  id : Nat
  competency_name : String
  raw_score : ℚ
  max_score : ℚ
  percentage : ℚ
  performance_level : String
  is_strength : Bool
  is_weakness : Bool
  deriving DecidableEq, Repr

/-- Modelled from the spec: the Exam row.  models.py declares Exam but without
the total_score, rank and percentile fields the service reads and writes; the
spec (section 3) lists them, so they are added here.  `timestamp` is any
linearly ordered stamp; `id` is the database primary key. -/
structure Exam where
  id : Nat
  status : String
  total_score : ℚ
  timestamp : ℚ
  rank : Nat
  percentile : ℚ
  deriving DecidableEq, Repr

/-- CheatingEvent row (models.py): the event type tag and the tab switch
counter, the only fields calculate_violation_deduction reads. -/
structure CheatingEvent where
  event_type : String
  tab_switch_count : Nat
  deriving DecidableEq, Repr

/-- Question dict consumed by calculate_total_score: id, correct_answer and
competency_type. -/
structure Question where
  id : Nat
  correct_answer : String
  competency_type : String
  deriving DecidableEq, Repr

/-- Python max(a, b) on exact numbers. -/
def pyMax (a b : ℚ) : ℚ := if b ≤ a then a else b

/-- Python min(a, b) on exact numbers. -/
def pyMin (a b : ℚ) : ℚ := if a ≤ b then a else b

/-- Python max(a, b) on integers. -/
def pyMaxZ (a b : ℤ) : ℤ := if b ≤ a then a else b

/-- Python dict lookup d[k] over an association list: some value when the key
is present, none (KeyError) otherwise. -/
def dictGet? {α : Type} : List (String × α) → String → Option α
  | [], _ => none
  | p :: rest, k => if p.1 = k then some p.2 else dictGet? rest k

/-- Python dict.get k default over an association list. -/
def dictGet {α : Type} (d : List (String × α)) (k : String) (dflt : α) : α :=
  match dictGet? d k with
  | some v => v
  | none => dflt

/-- SimpleScoringService.MARKS: marks per competency. -/
def MARKS : List (String × Nat) :=
  [("critical_thinking", 4), ("communication", 2), ("adaptability", 1),
   ("basic_engineering", 5), ("technical", 6)]

/-- SimpleScoringService.MAX_SCORES: maximum possible raw score per
competency. -/
def MAX_SCORES : List (String × ℚ) :=
  [("critical_thinking", 20), ("communication", 10), ("adaptability", 2),
   ("basic_engineering", 25), ("technical", 48)]

/-- SimpleScoringService.COMPETENCY_WEIGHTS: job relevance weights. -/
def COMPETENCY_WEIGHTS : List (String × ℚ) :=
  [("critical_thinking", 3/10), ("communication", 2/10), ("adaptability", 1/10),
   ("basic_engineering", 3/10), ("technical", 5/10)]

/-- Course lists of one competency in SimpleScoringService.COURSE_MAPPING. -/
structure CourseLists where
  priority : List String
  complementary : List String
  advanced : List String
  deriving DecidableEq, Repr

/-- SimpleScoringService.COURSE_MAPPING. -/
def COURSE_MAPPING : List (String × CourseLists) :=
  [("critical_thinking",
    ⟨["Critical Thinking Bootcamp", "Problem Solving Workshops"],
     ["Decision Making for Engineers"], ["Advanced Systems Thinking"]⟩),
   ("communication",
    ⟨["Technical Writing Essentials", "Presentation Skills"],
     ["Interpersonal Communication"], ["Professional Communication for Leaders"]⟩),
   ("adaptability",
    ⟨["Change Management Fundamentals"],
     ["Time & Priority Management"], ["Leadership Agility Program"]⟩),
   ("basic_engineering",
    ⟨["Engineering Fundamentals Refresher"],
     ["Materials & Manufacturing Basics"], ["Advanced Engineering Design"]⟩),
   ("technical",
    ⟨["Field-specific Technical Foundations"],
     ["Applied Technical Projects"], ["Specialization / Capstone Projects"]⟩)]

section GroundLookups

/-- Ground value of the critical_thinking weight, for concrete evaluations. -/
@[simp] lemma weight_critical : dictGet COMPETENCY_WEIGHTS "critical_thinking" 0 = 3/10 := rfl

/-- Ground value of the communication weight. -/
@[simp] lemma weight_communication : dictGet COMPETENCY_WEIGHTS "communication" 0 = 2/10 := rfl

/-- Ground value of the adaptability weight. -/
@[simp] lemma weight_adaptability : dictGet COMPETENCY_WEIGHTS "adaptability" 0 = 1/10 := rfl

/-- Ground value of the basic_engineering weight. -/
@[simp] lemma weight_basic : dictGet COMPETENCY_WEIGHTS "basic_engineering" 0 = 3/10 := rfl

/-- Ground value of the technical weight. -/
@[simp] lemma weight_technical : dictGet COMPETENCY_WEIGHTS "technical" 0 = 5/10 := rfl

end GroundLookups

/-- Performance level thresholds of save_competency_breakdown, first match
wins, mirroring the if/elif chain. -/
def performanceLevel (percentage : ℚ) : String :=
  if 85 ≤ percentage then "advanced"
  else if 70 ≤ percentage then "proficient"
  else if 50 ≤ percentage then "developing"
  else if 30 ≤ percentage then "emerging"
  else "novice"

/-- One CompetencyScore.objects.create call of save_competency_breakdown:
max score looked up with default 0, percentage raw/max*100 when max > 0 else
0, then capped to the band from 0 to 100; flags start false.  The id is the
fresh primary key handed to the row. -/
def makeCompetencyRow (id : Nat) (competency_name : String) (raw_score : ℚ) :
    CompetencyScore :=
  let max_score := dictGet MAX_SCORES competency_name 0
  let pct := if 0 < max_score then raw_score / max_score * 100 else 0
  let percentage := pyMax 0 (pyMin 100 pct)
  { id := id, competency_name := competency_name, raw_score := raw_score,
    max_score := max_score, percentage := percentage,
    performance_level := performanceLevel percentage,
    is_strength := false, is_weakness := false }

/-- Sort relation of comp_scores.sort(key percentage, reverse=True): a may
come before b when the percentage of b is at most that of a. -/
abbrev pctDescLE (a b : CompetencyScore) : Prop := b.percentage ≤ a.percentage

instance : DecidableRel pctDescLE :=
  fun a b => inferInstanceAs (Decidable (b.percentage ≤ a.percentage))

instance : IsTotal CompetencyScore pctDescLE :=
  ⟨fun a b => le_total b.percentage a.percentage⟩

instance : IsTrans CompetencyScore pctDescLE :=
  ⟨fun _ _ _ hab hbc => le_trans hbc hab⟩

/-- Sort relation of sorted(comp_scores, key percentage): ascending. -/
abbrev pctAscLE (a b : CompetencyScore) : Prop := a.percentage ≤ b.percentage

instance : DecidableRel pctAscLE :=
  fun a b => inferInstanceAs (Decidable (a.percentage ≤ b.percentage))

instance : IsTotal CompetencyScore pctAscLE :=
  ⟨fun a b => le_total a.percentage b.percentage⟩

instance : IsTrans CompetencyScore pctAscLE :=
  ⟨fun _ _ _ hab hbc => le_trans hab hbc⟩

/-- Strength candidate selection of identify_strengths_weaknesses: the rows
with percentage at least 75 of the descending sort, falling back to its top
two when fewer than two qualify.  The first two of the selection get the
strength flag. -/
def strengthSelection (sortedRows : List CompetencyScore) : List CompetencyScore :=
  if (sortedRows.filter (fun c => 75 ≤ c.percentage)).length < 2
  then sortedRows.take 2
  else sortedRows.filter (fun c => 75 ≤ c.percentage)

/-- Weakness candidate selection of identify_strengths_weaknesses over the
ascending sort: the rows with percentage below 60, falling back to the first
two of the ascending sort when fewer than two qualify. -/
def weaknessSelection (bottomSorted : List CompetencyScore) : List CompetencyScore :=
  if (bottomSorted.filter (fun c => c.percentage < 60)).length < 2
  then bottomSorted.take 2
  else bottomSorted.filter (fun c => c.percentage < 60)

/-- SimpleScoringService.identify_strengths_weaknesses.  The input list is the
set of CompetencyScore rows of the exam; the result is the final state of
those rows.  The database update first resets every flag of the exam to
false, then the first two rows of each selection are saved with their flag
set, which the final map reproduces. -/
def identify_strengths_weaknesses (comp_scores : List CompetencyScore) :
    List CompetencyScore :=
  if comp_scores.isEmpty then comp_scores
  else
    let sortedRows := comp_scores.insertionSort pctDescLE
    let strengthIds := ((strengthSelection sortedRows).take 2).map (fun c => c.id)
    let bottomSorted := sortedRows.insertionSort pctAscLE
    let weakIds := ((weaknessSelection bottomSorted).take 2).map (fun c => c.id)
    sortedRows.map (fun c =>
      { c with is_strength := decide (c.id ∈ strengthIds),
               is_weakness := decide (c.id ∈ weakIds) })

/-- SimpleScoringService.save_competency_breakdown: the old rows of the exam
are deleted, one fresh row per dict item is created (ids are the fresh primary
keys, here the item index), then identify_strengths_weaknesses runs on the
created rows.  The result is the final set of rows of the exam. -/
def save_competency_breakdown (competency_scores : List (String × ℚ)) :
    List CompetencyScore :=
  let created := competency_scores.enum.map (fun p => makeCompetencyRow p.1 p.2.1 p.2.2)
  identify_strengths_weaknesses created

/-- Priority dict built by compute_improvement_priorities for one row. -/
structure PriorityEntry where
  competency_name : String
  percentage : ℚ
  priority_score : ℚ
  is_strength : Bool
  is_weakness : Bool
  deriving DecidableEq, Repr

/-- Python round(x, 3): banker rounding of x to three decimal places, on the
exact rational value. -/
def pythonRound3 (q : ℚ) : ℚ :=
  let x := q * 1000
  let f : ℤ := ⌊x⌋
  let r : ℚ := x - f
  let n : ℤ :=
    if r < 1/2 then f
    else if 1/2 < r then f + 1
    else if f % 2 = 0 then f else f + 1
  (n : ℚ) / 1000

/-- One loop body of compute_improvement_priorities: gap to 75, weight with
default 0, priority score rounded to three decimals. -/
def priorityEntryOf (c : CompetencyScore) : PriorityEntry :=
  let gap := pyMax 0 (75 - c.percentage)
  let weight := dictGet COMPETENCY_WEIGHTS c.competency_name 0
  { competency_name := c.competency_name, percentage := c.percentage,
    priority_score := pythonRound3 (gap * weight),
    is_strength := c.is_strength, is_weakness := c.is_weakness }

/-- Sort relation of priorities.sort(key priority_score, reverse=True). -/
abbrev prioLE (a b : PriorityEntry) : Prop := b.priority_score ≤ a.priority_score

instance : DecidableRel prioLE :=
  fun a b => inferInstanceAs (Decidable (b.priority_score ≤ a.priority_score))

instance : IsTotal PriorityEntry prioLE :=
  ⟨fun a b => le_total b.priority_score a.priority_score⟩

instance : IsTrans PriorityEntry prioLE :=
  ⟨fun _ _ _ hab hbc => le_trans hbc hab⟩

/-- SimpleScoringService.compute_improvement_priorities.  The input list is
the queryset of CompetencyScore rows of the exam in iteration order. -/
def compute_improvement_priorities (rows : List CompetencyScore) :
    List PriorityEntry :=
  (rows.map priorityEntryOf).insertionSort prioLE

/-- Lines 170 to 175 of recommend_courses: the weak set driving the priority
course selection.  weak is the sublist of the priority list with percentage
below 60; when it is empty the Python slice pr[-2:], the last two entries of
the priority list, is used instead. -/
def recommendWeakSet (rows : List CompetencyScore) : List PriorityEntry :=
  let pr := compute_improvement_priorities rows
  let weak := pr.filter (fun p => p.percentage < 60)
  if weak.isEmpty then pr.drop (pr.length - 2) else weak

/-- Python list(dict.fromkeys(l)): duplicates removed keeping the first
occurrence of each element. -/
def dedupKeepFirst (l : List String) : List String :=
  l.foldl (fun acc x => if x ∈ acc then acc else acc ++ [x]) []

/-- SimpleScoringService.recommend_courses: priority courses from the first
two weak entries, complementary courses for percentages in the band from 50
below 75, advanced courses for percentages at least 75, each list deduplicated
keeping first occurrences.  Returns (priority, complementary, advanced). -/
def recommend_courses (rows : List CompetencyScore) :
    List String × List String × List String :=
  let comp_scores := rows.insertionSort pctDescLE
  let weak := recommendWeakSet rows
  let priority := (weak.take 2).foldl
    (fun acc w => acc ++ (match dictGet? COURSE_MAPPING w.competency_name with
      | some m => m.priority
      | none => [])) []
  let complementary := comp_scores.foldl
    (fun acc c =>
      if 50 ≤ c.percentage ∧ c.percentage < 75 then
        acc ++ (match dictGet? COURSE_MAPPING c.competency_name with
          | some m => m.complementary
          | none => [])
      else acc) []
  let advanced := comp_scores.foldl
    (fun acc c =>
      if 75 ≤ c.percentage then
        acc ++ (match dictGet? COURSE_MAPPING c.competency_name with
          | some m => m.advanced
          | none => [])
      else acc) []
  (dedupKeepFirst priority, dedupKeepFirst complementary, dedupKeepFirst advanced)

/-- Event type weights of calculate_violation_deduction. -/
def VIOLATION_WEIGHTS : List (String × ℚ) :=
  [("multiple_persons", 3/10), ("object_detected", 25/100),
   ("audio_detected", 15/100), ("gaze_detected", 1/10)]

/-- SimpleScoringService.calculate_violation_deduction.  The input list is the
queryset of CheatingEvent rows of the student of the exam, in iteration order;
violations.first() is its head.  Every CheatingEvent row has the
tab_switch_count column, so the hasattr test of the source is always true. -/
def calculate_violation_deduction (violations : List CheatingEvent) : Nat :=
  let severity : ℚ :=
    violations.foldl (fun s v => s + dictGet VIOLATION_WEIGHTS v.event_type 0) 0
  let severity :=
    match violations.head? with
    | some first => severity + pyMin ((first.tab_switch_count : ℚ) * (15/100)) (75/100)
    | none => severity
  if 1 ≤ severity then 2 else 0

/-- Ground value of the multiple_persons violation weight. -/
@[simp] lemma vweight_multiple : dictGet VIOLATION_WEIGHTS "multiple_persons" 0 = 3/10 := rfl

/-- Ground value of the object_detected violation weight. -/
@[simp] lemma vweight_object : dictGet VIOLATION_WEIGHTS "object_detected" 0 = 25/100 := rfl

/-- Initial competency dict of calculate_total_score: one key per MARKS key,
each value 0. -/
def initCompetencyDict : List (String × Nat) := MARKS.map (fun p => (p.1, 0))

/-- Python d[k] += v on the competency dict: adds v at key k when the key is
present, none (KeyError) otherwise. -/
def dictAddExisting (d : List (String × Nat)) (k : String) (v : Nat) :
    Option (List (String × Nat)) :=
  if (dictGet? d k).isSome then
    some (d.map (fun p => if p.1 = k then (p.1, p.2 + v) else p))
  else none

/-- One iteration of the grading loop of calculate_total_score: when the
submitted answer at the stringified question id equals the correct answer,
MARKS[comp] is looked up and added at key comp; either lookup raises KeyError
(none) when comp is not a MARKS key.  Otherwise the dict is unchanged. -/
def gradeStep (answers : String → Option String) (d : List (String × Nat))
    (q : Question) : Option (List (String × Nat)) :=
  if answers (toString q.id) = some q.correct_answer then
    match dictGet? MARKS q.competency_type with
    | some m => dictAddExisting d q.competency_type m
    | none => none
  else some d

/-- The grading loop of calculate_total_score over all questions. -/
def grade_answers (questions : List Question) (answers : String → Option String) :
    Option (List (String × Nat)) :=
  questions.foldlM (gradeStep answers) initCompetencyDict

/-- Sum of the values of the competency dict. -/
def sumVals (d : List (String × Nat)) : Nat := (d.map (fun p => p.2)).sum

/-- SimpleScoringService.calculate_total_score: grades the questions, saves
the competency breakdown as a side effect (returned here as the row set),
sums the raw competency scores, subtracts the violation deduction and floors
at 0.  none models an uncaught KeyError in the grading loop. -/
def calculate_total_score (questions : List Question)
    (answers : String → Option String) (violations : List CheatingEvent) :
    Option (List CompetencyScore × ℤ) :=
  match grade_answers questions answers with
  | none => none
  | some d =>
    let rows := save_competency_breakdown (d.map (fun p => (p.1, (p.2 : ℚ))))
    let total : ℤ := (sumVals d : ℤ) - (calculate_violation_deduction violations : ℤ)
    some (rows, pyMaxZ 0 total)

/-- Sort relation of Exam.objects.order_by("-total_score", "-timestamp"):
total score descending, ties by timestamp descending. -/
abbrev rankingLE (a b : Exam) : Prop :=
  b.total_score < a.total_score ∨
    (b.total_score = a.total_score ∧ b.timestamp ≤ a.timestamp)

instance : DecidableRel rankingLE :=
  fun _ _ => inferInstanceAs (Decidable (_ ∨ _))

/-- The ranking loop of calculate_ranking: the exam at 1-based position r gets
rank r and percentile (total - r)/total*100; the division is executed once per
iteration, so a ZeroDivisionError can only arise when an iteration runs with
total = 0. -/
def assignRanks (total : Nat) : Nat → List Exam → Except String (List Exam)
  | _, [] => Except.ok []
  | r, e :: es =>
    if total = 0 then Except.error "ZeroDivisionError"
    else
      match assignRanks total (r + 1) es with
      | Except.error msg => Except.error msg
      | Except.ok rest =>
        Except.ok (
          { e with
              rank := r,
              percentile := ((total : ℚ) - (r : ℚ)) / (total : ℚ) * 100 } :: rest)

/-- Each exam.save() of the ranking loop rewrites the database row with the
same primary key. -/
def writeBack (db ranked : List Exam) : List Exam :=
  db.map (fun e =>
    match ranked.find? (fun x => x.id = e.id) with
    | some x => x
    | none => e)

/-- SimpleScoringService.calculate_ranking.  db is the exam table; selfExam is
the in-memory instance the service holds (self.exam), a snapshot distinct from
the fresh instances the completed-exam queryset yields.  The cohort is ranked
and written back, and the returned pair reads rank and percentile from the
snapshot, whose fields the loop never touches. -/
def calculate_ranking (db : List Exam) (selfExam : Exam) :
    Except String (List Exam × Nat × ℚ) :=
  let cohort := (db.filter (fun e => e.status = "completed")).insertionSort rankingLE
  let total := cohort.length
  match assignRanks total 1 cohort with
  | Except.error msg => Except.error msg
  | Except.ok ranked =>
    Except.ok (writeBack db ranked, selfExam.rank, selfExam.percentile)


/-! Helper lemmas shared by several claims. -/

/-- The clamp of save_competency_breakdown always lands in the band from 0 to
100. -/
lemma clamp_bounds (x : ℚ) : 0 ≤ pyMax 0 (pyMin 100 x) ∧ pyMax 0 (pyMin 100 x) ≤ 100 := by
  unfold pyMax pyMin
  split_ifs <;> constructor <;> linarith

/-- Every row of the output of identify_strengths_weaknesses carries the
percentage of a row of the input. -/
lemma mem_identify_percentage {l : List CompetencyScore} {c : CompetencyScore}
    (h : c ∈ identify_strengths_weaknesses l) : ∃ d ∈ l, c.percentage = d.percentage := by
  unfold identify_strengths_weaknesses at h
  by_cases he : l.isEmpty
  · rw [if_pos he] at h
    exact ⟨c, h, rfl⟩
  · rw [if_neg he] at h
    obtain ⟨c0, hc0, rfl⟩ := List.mem_map.mp h
    exact ⟨c0, (List.perm_insertionSort pctDescLE l).subset hc0, rfl⟩

/-- Claim C7: for every raw score and competency name handed to
save_competency_breakdown, including raw scores above the max, negative raw
scores, and names with no configured max score, the percentage stored in
every created CompetencyScore row lies between 0 and 100. -/
theorem C7_percentage_clamped (competency_scores : List (String × ℚ)) :
    ∀ c ∈ save_competency_breakdown competency_scores,
      0 ≤ c.percentage ∧ c.percentage ≤ 100 := by
  intro c hc
  obtain ⟨d, hd, hpct⟩ := mem_identify_percentage hc
  obtain ⟨p, _, rfl⟩ := List.mem_map.mp hd
  rw [hpct]
  exact clamp_bounds _

/-- Claim C7 witness: the clamp statement at a one-item dict with an
unconfigured competency name, where the max score defaults to 0 and the
percentage to 0. -/
theorem C7_percentage_clamped_witness :
    (⟨0, "mystery", 5, 0, 0, "novice", true, true⟩ : CompetencyScore) ∈
      save_competency_breakdown [("mystery", 5)] ∧
    (0 ≤ (⟨0, "mystery", 5, 0, 0, "novice", true, true⟩ : CompetencyScore).percentage ∧
     (⟨0, "mystery", 5, 0, 0, "novice", true, true⟩ : CompetencyScore).percentage ≤ 100) :=
  ⟨by decide, C7_percentage_clamped [("mystery", 5)]
    ⟨0, "mystery", 5, 0, 0, "novice", true, true⟩ (by decide)⟩

/-- Folding additions of a weight function equals the initial value plus the
sum of the mapped weights. -/
lemma foldl_add_map_sum (w : CheatingEvent → ℚ) :
    ∀ (l : List CheatingEvent) (a : ℚ),
      l.foldl (fun s v => s + w v) a = a + (l.map w).sum
  | [], a => by simp
  | v :: l, a => by
    simp only [List.foldl_cons, List.map_cons, List.sum_cons]
    rw [foldl_add_map_sum w l (a + w v)]
    ring

/-- Claim C5: calculate_violation_deduction returns 2 when the severity, the
sum of the per-type weights over all events plus the capped tab switch term
of the first event, reaches 1, and 0 otherwise; in particular one
multiple_persons event plus one object_detected event yield deduction 2 when
the first event has tab_switch_count 4 and deduction 0 when it has
tab_switch_count 0. -/
theorem C5_violation_deduction :
    (∀ violations : List CheatingEvent,
      calculate_violation_deduction violations =
        if 1 ≤ (violations.map (fun v => dictGet VIOLATION_WEIGHTS v.event_type 0)).sum +
            (match violations.head? with
             | some first => pyMin ((first.tab_switch_count : ℚ) * (15/100)) (75/100)
             | none => 0)
        then 2 else 0) ∧
    calculate_violation_deduction
      [⟨"multiple_persons", 4⟩, ⟨"object_detected", 0⟩] = 2 ∧
    calculate_violation_deduction
      [⟨"multiple_persons", 0⟩, ⟨"object_detected", 0⟩] = 0 := by
  refine ⟨fun violations => ?_, ?_, ?_⟩
  · unfold calculate_violation_deduction
    rw [foldl_add_map_sum]
    cases violations with
    | nil => simp
    | cons v l => simp [List.head?]
  · norm_num [calculate_violation_deduction, pyMin]
  · norm_num [calculate_violation_deduction, pyMin]

/-- Claim C2 counterexample: with no completed exam stored at all,
calculate_ranking returns normally with the stored rank and percentile of the
snapshot exam instead of failing with a division by zero, because the
division sits inside the per-exam loop, which runs zero times. -/
theorem C2_counterexample :
    calculate_ranking [] ⟨1, "ongoing", 0, 0, 7, 42⟩ = Except.ok ([], 7, 42) := rfl

/-- Claim C2 (amended): when the set of exams with status completed is empty
at call time, calculate_ranking returns normally: no exam is touched and the
pair of the stored in-memory rank and percentile of the snapshot exam is
returned. -/
theorem C2_empty_cohort_returns (db : List Exam) (selfExam : Exam)
    (h : db.filter (fun e => e.status = "completed") = []) :
    calculate_ranking db selfExam = Except.ok (db, selfExam.rank, selfExam.percentile) := by
  unfold calculate_ranking
  rw [h]
  simp [assignRanks, writeBack, List.insertionSort]

/-- Claim C2 witness: the amended statement at a store holding one ongoing
exam only. -/
theorem C2_empty_cohort_returns_witness :
    (([⟨2, "ongoing", 0, 0, 0, 0⟩] : List Exam).filter
        (fun e => e.status = "completed") = []) ∧
    calculate_ranking [⟨2, "ongoing", 0, 0, 0, 0⟩] ⟨1, "ongoing", 0, 0, 7, 42⟩ =
      Except.ok ([⟨2, "ongoing", 0, 0, 0, 0⟩], 7, 42) :=
  ⟨by decide, C2_empty_cohort_returns _ _ (by decide)⟩

/-! Grading loop lemmas for claims C8 and C9. -/

/-- The marks a question contributes when answered correctly, 0 when its
competency tag is not a MARKS key. -/
def marksOf (q : Question) : Nat :=
  match dictGet? MARKS q.competency_type with
  | some m => m
  | none => 0

/-- Closed form of the raw score total the grading loop accumulates. -/
def gradedSum (answers : String → Option String) (l : List Question) : Nat :=
  (l.map (fun q =>
    if answers (toString q.id) = some q.correct_answer then marksOf q else 0)).sum

/-- A dict lookup succeeds exactly when the key is present. -/
lemma dictGet?_isSome_iff {α : Type} :
    ∀ (d : List (String × α)) (k : String),
      (dictGet? d k).isSome ↔ k ∈ d.map Prod.fst
  | [], k => by simp [dictGet?]
  | p :: rest, k => by
    by_cases h : p.1 = k
    · simp [dictGet?, h]
    · simp only [dictGet?, if_neg h, List.map_cons, List.mem_cons]
      rw [dictGet?_isSome_iff rest k]
      constructor
      · exact Or.inr
      · rintro (hk | hk)
        · exact absurd hk.symm h
        · exact hk

/-- The in-place addition of the grading loop keeps the key list. -/
lemma keys_map_update (d : List (String × Nat)) (k : String) (v : Nat) :
    ((d.map (fun p => if p.1 = k then (p.1, p.2 + v) else p)).map Prod.fst) =
      d.map Prod.fst := by
  induction d with
  | nil => rfl
  | cons p rest ih =>
    by_cases h : p.1 = k <;> simp [h, ih]

/-- With distinct keys, the in-place addition raises the value total by
exactly the added amount. -/
lemma sumVals_map_update :
    ∀ (d : List (String × Nat)) (k : String) (v : Nat),
      k ∈ d.map Prod.fst → (d.map Prod.fst).Nodup →
      sumVals (d.map (fun p => if p.1 = k then (p.1, p.2 + v) else p)) =
        sumVals d + v
  | [], k, v, hmem, _ => by simp at hmem
  | p :: rest, k, v, hmem, hnd => by
    rw [List.map_cons, List.nodup_cons] at hnd
    by_cases h : p.1 = k
    · have hrest : rest.map (fun p => if p.1 = k then (p.1, p.2 + v) else p) = rest := by
        have hcg : ∀ q ∈ rest, (if q.1 = k then (q.1, q.2 + v) else q) = id q := by
          intro q hq
          have : q.1 ≠ k := fun hqk => hnd.1 (h ▸ hqk ▸ List.mem_map_of_mem Prod.fst hq)
          simp [this]
        rw [List.map_congr_left hcg, List.map_id]
      simp only [List.map_cons, if_pos h, sumVals, List.sum_cons, hrest]
      omega
    · have hk : k ∈ rest.map Prod.fst := by
        rcases List.mem_cons.mp hmem with hk | hk
        · exact absurd hk.symm h
        · exact hk
      have ih := sumVals_map_update rest k v hk hnd.2
      simp only [List.map_cons, if_neg h, sumVals, List.sum_cons] at ih ⊢
      omega

/-- The MARKS keys are distinct. -/
lemma MARKS_keys_nodup : (MARKS.map Prod.fst).Nodup := by decide

/-- The grading loop of calculate_total_score completes whenever every
correctly answered question carries a MARKS competency tag, keeps the key
list of the dict, and raises its value total by the closed-form graded sum. -/
lemma grade_loop_spec (a : String → Option String) :
    ∀ (l : List Question) (d : List (String × Nat)),
      (∀ x ∈ l, a (toString x.id) = some x.correct_answer →
        (dictGet? MARKS x.competency_type).isSome) →
      d.map Prod.fst = MARKS.map Prod.fst →
      ∃ e, List.foldlM (gradeStep a) d l = some e ∧
        e.map Prod.fst = MARKS.map Prod.fst ∧
        sumVals e = sumVals d + gradedSum a l
  | [], d, _, hkeys => ⟨d, rfl, hkeys, by simp [gradedSum]⟩
  | x :: l, d, hcond, hkeys => by
    rw [List.foldlM_cons]
    by_cases hc : a (toString x.id) = some x.correct_answer
    · have hsome := hcond x (List.mem_cons_self x l) hc
      obtain ⟨m, hm⟩ := Option.isSome_iff_exists.mp hsome
      have hkmem : x.competency_type ∈ d.map Prod.fst := by
        rw [hkeys]
        exact (dictGet?_isSome_iff MARKS x.competency_type).mp hsome
      have hstep : gradeStep a d x =
          some (d.map (fun p => if p.1 = x.competency_type then (p.1, p.2 + m) else p)) := by
        have hin : (dictGet? d x.competency_type).isSome :=
          (dictGet?_isSome_iff d x.competency_type).mpr hkmem
        unfold gradeStep dictAddExisting
        rw [if_pos hc, hm]
        simp [hin]
      rw [hstep]
      obtain ⟨e, he, hek, hes⟩ := grade_loop_spec a l
        (d.map (fun p => if p.1 = x.competency_type then (p.1, p.2 + m) else p))
        (fun y hy => hcond y (List.mem_cons_of_mem x hy))
        (by rw [keys_map_update, hkeys])
      refine ⟨e, by simpa using he, hek, ?_⟩
      have hnd : (d.map Prod.fst).Nodup := by rw [hkeys]; exact MARKS_keys_nodup
      have hsum := sumVals_map_update d x.competency_type m hkmem hnd
      have hmarks : marksOf x = m := by unfold marksOf; rw [hm]
      simp only [gradedSum, List.map_cons, List.sum_cons, if_pos hc, hmarks] at hes ⊢
      rw [hes, hsum]
      omega
    · have hstep : gradeStep a d x = some d := by
        unfold gradeStep
        rw [if_neg hc]
      rw [hstep]
      obtain ⟨e, he, hek, hes⟩ := grade_loop_spec a l d
        (fun y hy => hcond y (List.mem_cons_of_mem x hy)) hkeys
      refine ⟨e, by simpa using he, hek, ?_⟩
      simp only [gradedSum, List.map_cons, List.sum_cons, if_neg hc] at hes ⊢
      omega

/-- The floor at zero of calculate_total_score is monotone. -/
lemma pyMaxZ_zero_mono {a b : ℤ} (h : a ≤ b) : pyMaxZ 0 a ≤ pyMaxZ 0 b := by
  unfold pyMaxZ
  split_ifs <;> omega

/-- Claim C9 counterexample: a question tagged with a competency outside the
taxonomy makes the grading loop raise a KeyError as soon as the question is
answered correctly, so calculate_total_score does not complete. -/
theorem C9_counterexample :
    calculate_total_score [⟨1, "A", "quantum_reasoning"⟩]
      (fun k => if k = "1" then some "A" else none) [] = none := by decide

/-- Claim C9 (amended): calculate_total_score completes whenever every
correctly answered question carries a competency tag with configured marks;
a question with an unknown tag is harmless exactly when it is not answered
correctly, in which case it contributes nothing. -/
theorem C9_unknown_tag_guarded (questions : List Question)
    (answers : String → Option String) (violations : List CheatingEvent)
    (h : ∀ q ∈ questions, answers (toString q.id) = some q.correct_answer →
      (dictGet? MARKS q.competency_type).isSome) :
    ∃ v, calculate_total_score questions answers violations = some v := by
  obtain ⟨e, he, _, _⟩ := grade_loop_spec answers questions initCompetencyDict h rfl
  have hc : calculate_total_score questions answers violations =
      some (save_competency_breakdown (e.map (fun p => (p.1, (p.2 : ℚ)))),
        pyMaxZ 0 ((sumVals e : ℤ) - (calculate_violation_deduction violations : ℤ))) := by
    unfold calculate_total_score
    rw [show grade_answers questions answers = some e from he]
  exact ⟨_, hc⟩

/-- Claim C9 witness: the amended statement at a question set holding one
unknown-competency question answered incorrectly. -/
theorem C9_unknown_tag_guarded_witness :
    (∀ q ∈ [(⟨1, "A", "quantum_reasoning"⟩ : Question)],
      (fun _ : String => some "B") (toString q.id) = some q.correct_answer →
      (dictGet? MARKS q.competency_type).isSome) ∧
    ∃ v, calculate_total_score [⟨1, "A", "quantum_reasoning"⟩]
      (fun _ => some "B") [] = some v :=
  ⟨by decide, C9_unknown_tag_guarded _ _ _ (by decide)⟩

/-- Claim C8: with the question sequence and the violation events fixed,
changing one submitted answer from incorrect to correct for a question of the
sequence never lowers the total calculate_total_score returns.  The question
ids are assumed distinct as stringified keys and every competency tag is
assumed configured, so that both runs complete. -/
theorem C8_total_monotone (questions : List Question)
    (a1 a2 : String → Option String) (violations : List CheatingEvent)
    (q : Question)
    (hq : q ∈ questions)
    (hids : (questions.map (fun x => toString x.id)).Nodup)
    (hknown : ∀ x ∈ questions, (dictGet? MARKS x.competency_type).isSome)
    (h1 : a1 (toString q.id) ≠ some q.correct_answer)
    (h2 : a2 (toString q.id) = some q.correct_answer)
    (hagree : ∀ k, k ≠ toString q.id → a2 k = a1 k) :
    ∃ rows1 t1 rows2 t2,
      calculate_total_score questions a1 violations = some (rows1, t1) ∧
      calculate_total_score questions a2 violations = some (rows2, t2) ∧
      t1 ≤ t2 := by
  obtain ⟨e1, he1, _, hes1⟩ := grade_loop_spec a1 questions initCompetencyDict
    (fun x hx _ => hknown x hx) rfl
  obtain ⟨e2, he2, _, hes2⟩ := grade_loop_spec a2 questions initCompetencyDict
    (fun x hx _ => hknown x hx) rfl
  have hg : gradedSum a1 questions ≤ gradedSum a2 questions := by
    apply List.sum_le_sum
    intro x hx
    by_cases hxid : toString x.id = toString q.id
    · have hxq : x = q := List.inj_on_of_nodup_map hids hx hq hxid
      subst hxq
      rw [if_neg h1]
      exact Nat.zero_le _
    · rw [hagree (toString x.id) hxid]
  have hsum : sumVals e1 ≤ sumVals e2 := by
    rw [hes1, hes2]
    exact Nat.add_le_add_left hg _
  have hc1 : calculate_total_score questions a1 violations =
      some (save_competency_breakdown (e1.map (fun p => (p.1, (p.2 : ℚ)))),
        pyMaxZ 0 ((sumVals e1 : ℤ) - (calculate_violation_deduction violations : ℤ))) := by
    unfold calculate_total_score
    rw [show grade_answers questions a1 = some e1 from he1]
  have hc2 : calculate_total_score questions a2 violations =
      some (save_competency_breakdown (e2.map (fun p => (p.1, (p.2 : ℚ)))),
        pyMaxZ 0 ((sumVals e2 : ℤ) - (calculate_violation_deduction violations : ℤ))) := by
    unfold calculate_total_score
    rw [show grade_answers questions a2 = some e2 from he2]
  refine ⟨_, _, _, _, hc1, hc2, ?_⟩
  exact pyMaxZ_zero_mono (sub_le_sub_right (Int.ofNat_le.mpr hsum) _)

/-- Claim C8 witness: the monotone statement at a one-question sequence whose
answer flips from missing to correct. -/
theorem C8_total_monotone_witness :
    ((fun _ : String => (none : Option String)) "1" ≠ some "A") ∧
    ∃ rows1 t1 rows2 t2,
      calculate_total_score [⟨1, "A", "technical"⟩]
        (fun _ => none) [] = some (rows1, t1) ∧
      calculate_total_score [⟨1, "A", "technical"⟩]
        (fun k => if k = "1" then some "A" else none) [] = some (rows2, t2) ∧
      t1 ≤ t2 :=
  ⟨by decide, C8_total_monotone _ _ _ _ ⟨1, "A", "technical"⟩ (by decide) (by decide)
    (by decide) (by decide) (by decide) (fun k hk => if_neg hk)⟩

/-- Claim C4: calculate_ranking at a cohort of one completed exam (total
score 90) whose snapshot holds the stale pair rank 5, percentile 37.  The
pass assigns and persists rank 1 and percentile 0 to the stored row, yet the
returned pair is the stale (5, 37) read from the in-memory snapshot, because
the queryset loop rewrites fresh instances and never refreshes the snapshot:
the returned rank differs from the rank assigned in this pass. -/
theorem C4_stale_return :
    calculate_ranking [⟨1, "completed", 90, 0, 5, 37⟩] ⟨1, "completed", 90, 0, 5, 37⟩ =
      Except.ok ([⟨1, "completed", 90, 0, 1, 0⟩], 5, 37) ∧ (5 : Nat) ≠ 1 := by
  constructor
  · simp only [calculate_ranking, assignRanks, writeBack, List.insertionSort,
      List.orderedInsert, List.filter]
    norm_num
  · decide

/-- Claim C6: every entry of compute_improvement_priorities carries
priority_score equal to round(max(0, 75 - percentage) * weight, 3) with
weight 0 for an unconfigured competency, and the output is sorted descending
by priority_score with ties kept in input iteration order (stable sort). -/
theorem C6_priorities_formula_sorted (rows : List CompetencyScore) :
    (∀ e ∈ compute_improvement_priorities rows,
      e.priority_score =
        pythonRound3 (pyMax 0 (75 - e.percentage) *
          dictGet COMPETENCY_WEIGHTS e.competency_name 0)) ∧
    List.Sorted (fun a b => b.priority_score ≤ a.priority_score)
      (compute_improvement_priorities rows) ∧
    (∀ s : ℚ,
      (compute_improvement_priorities rows).filter (fun e => e.priority_score = s) =
        (rows.map priorityEntryOf).filter (fun e => e.priority_score = s)) := by
  refine ⟨?_, ?_, ?_⟩
  · intro e he
    have he' : e ∈ rows.map priorityEntryOf :=
      (List.perm_insertionSort prioLE (rows.map priorityEntryOf)).subset he
    obtain ⟨c, _, rfl⟩ := List.mem_map.mp he'
    rfl
  · exact List.sorted_insertionSort prioLE (rows.map priorityEntryOf)
  · intro s
    unfold compute_improvement_priorities
    have hpair : ((rows.map priorityEntryOf).filter
        (fun e => e.priority_score = s)).Pairwise prioLE := by
      apply List.pairwise_of_forall_mem_list
      intro a ha b hb
      have ha' : a.priority_score = s := of_decide_eq_true (List.mem_filter.mp ha).2
      have hb' : b.priority_score = s := of_decide_eq_true (List.mem_filter.mp hb).2
      show b.priority_score ≤ a.priority_score
      rw [ha', hb']
    have hsub : List.Sublist
        ((rows.map priorityEntryOf).filter (fun e => e.priority_score = s))
        (List.insertionSort prioLE (rows.map priorityEntryOf)) :=
      List.sublist_insertionSort hpair (List.filter_sublist _)
    have hsub2 := hsub.filter (fun e => decide (e.priority_score = s))
    rw [List.filter_eq_self.mpr (fun a ha => (List.mem_filter.mp ha).2)] at hsub2
    have hlen : ((List.insertionSort prioLE (rows.map priorityEntryOf)).filter
          (fun e => decide (e.priority_score = s))).length =
        ((rows.map priorityEntryOf).filter (fun e => decide (e.priority_score = s))).length :=
      ((List.perm_insertionSort prioLE (rows.map priorityEntryOf)).filter
        (fun e => decide (e.priority_score = s))).length_eq
    exact (hsub2.eq_of_length hlen.symm).symm

/-- Row set with no percentage below 60 whose two lowest priority scores do
not sit at the two lowest percentages: percentages 74, 75, 60, 76, 70. -/
def prRows : List CompetencyScore :=
  [⟨1, "critical_thinking", 0, 20, 74, "proficient", false, false⟩,
   ⟨2, "communication", 0, 10, 75, "proficient", false, false⟩,
   ⟨3, "adaptability", 0, 2, 60, "developing", false, false⟩,
   ⟨4, "basic_engineering", 0, 25, 76, "proficient", false, false⟩,
   ⟨5, "technical", 0, 48, 70, "proficient", false, false⟩]

/-- Ground run of compute_improvement_priorities on prRows. -/
lemma prRows_priorities :
    compute_improvement_priorities prRows =
      [⟨"technical", 70, 5/2, false, false⟩,
       ⟨"adaptability", 60, 3/2, false, false⟩,
       ⟨"critical_thinking", 74, 3/10, false, false⟩,
       ⟨"communication", 75, 0, false, false⟩,
       ⟨"basic_engineering", 76, 0, false, false⟩] := by
  norm_num [compute_improvement_priorities, prRows, priorityEntryOf, pythonRound3, pyMax,
    List.insertionSort, List.orderedInsert]

/-- Ground run of the weak set fallback on prRows: the two entries kept are
the last two of the priority list, whose percentages 75 and 76 are the two
highest of the whole set. -/
lemma prRows_weak :
    recommendWeakSet prRows =
      [⟨"communication", 75, 0, false, false⟩,
       ⟨"basic_engineering", 76, 0, false, false⟩] := by
  norm_num [recommendWeakSet, prRows_priorities]

/-- Claim C3 counterexample: on prRows no entry of the priority list has
percentage below 60, yet the weak set driving the priority course selection
is the pair with percentages 75 and 76 (lowest priority scores), while the
entry with the lowest percentage of the whole list, 60, is not in it. -/
theorem C3_counterexample :
    (∀ p ∈ compute_improvement_priorities prRows, ¬ p.percentage < 60) ∧
    (recommendWeakSet prRows).map (fun p => p.percentage) = [75, 76] ∧
    (60 : ℚ) ∈ (compute_improvement_priorities prRows).map (fun p => p.percentage) ∧
    ¬ (60 : ℚ) ∈ (recommendWeakSet prRows).map (fun p => p.percentage) := by
  refine ⟨?_, ?_, ?_, ?_⟩
  · rw [prRows_priorities]; decide
  · rw [prRows_weak]; decide
  · rw [prRows_priorities]; decide
  · rw [prRows_weak]; decide

/-- Claim C3 (amended): when no entry of the priority list has percentage
below 60, the weak set used to select priority courses is the Python slice
pr[-2:], the last two entries of the priority list, and every other entry of
the priority list has a priority score at least as high as each of them: the
fallback picks the two lowest priority scores, not the two lowest
percentages. -/
theorem C3_weak_fallback (rows : List CompetencyScore)
    (h : ∀ p ∈ compute_improvement_priorities rows, ¬ p.percentage < 60) :
    recommendWeakSet rows =
      (compute_improvement_priorities rows).drop
        ((compute_improvement_priorities rows).length - 2) ∧
    ∀ p ∈ (compute_improvement_priorities rows).take
        ((compute_improvement_priorities rows).length - 2),
      ∀ w ∈ recommendWeakSet rows, w.priority_score ≤ p.priority_score := by
  have hfil : (compute_improvement_priorities rows).filter
      (fun p => p.percentage < 60) = [] :=
    List.filter_eq_nil_iff.mpr (fun a ha => by simpa using h a ha)
  have h1 : recommendWeakSet rows =
      (compute_improvement_priorities rows).drop
        ((compute_improvement_priorities rows).length - 2) := by
    simp [recommendWeakSet, hfil]
  refine ⟨h1, ?_⟩
  intro p hp w hw
  rw [h1] at hw
  have hsorted : (compute_improvement_priorities rows).Pairwise prioLE :=
    List.sorted_insertionSort prioLE (rows.map priorityEntryOf)
  rw [← List.take_append_drop
    ((compute_improvement_priorities rows).length - 2)
    (compute_improvement_priorities rows)] at hsorted
  exact (List.pairwise_append.mp hsorted).2.2 p hp w hw

/-- Claim C3 witness: the amended statement at prRows. -/
theorem C3_weak_fallback_witness :
    (∀ p ∈ compute_improvement_priorities prRows, ¬ p.percentage < 60) ∧
    (recommendWeakSet prRows =
      (compute_improvement_priorities prRows).drop
        ((compute_improvement_priorities prRows).length - 2) ∧
     ∀ p ∈ (compute_improvement_priorities prRows).take
        ((compute_improvement_priorities prRows).length - 2),
      ∀ w ∈ recommendWeakSet prRows, w.priority_score ≤ p.priority_score) := by
  have hhyp : ∀ p ∈ compute_improvement_priorities prRows, ¬ p.percentage < 60 := by
    rw [prRows_priorities]; decide
  exact ⟨hhyp, C3_weak_fallback prRows hhyp⟩

/-! Counting lemmas for claims C1 and C10. -/

/-- Counting the members of a duplicate-free selection inside a
duplicate-free list. -/
lemma countP_mem_ids {l S : List Nat} (hl : l.Nodup) (hS : S.Nodup)
    (hsub : ∀ x ∈ S, x ∈ l) :
    l.countP (fun x => decide (x ∈ S)) = S.length := by
  rw [List.countP_eq_length_filter]
  have hfn : (l.filter (fun x => decide (x ∈ S))).Nodup := hl.filter _
  have hft : (l.filter (fun x => decide (x ∈ S))).toFinset = S.toFinset := by
    ext a
    simp only [List.mem_toFinset, List.mem_filter, decide_eq_true_eq]
    exact ⟨fun h => h.2, fun h => ⟨hsub a h, h⟩⟩
  calc (l.filter (fun x => decide (x ∈ S))).length
      = (l.filter (fun x => decide (x ∈ S))).toFinset.card :=
        (List.toFinset_card_of_nodup hfn).symm
    _ = S.toFinset.card := by rw [hft]
    _ = S.length := List.toFinset_card_of_nodup hS

/-- The strength selection is a sublist of the sorted rows. -/
lemma strengthSelection_sublist (l : List CompetencyScore) :
    List.Sublist (strengthSelection l) l := by
  unfold strengthSelection
  split_ifs
  · exact List.take_sublist 2 l
  · exact List.filter_sublist l

/-- The weakness selection is a sublist of the ascending rows. -/
lemma weaknessSelection_sublist (l : List CompetencyScore) :
    List.Sublist (weaknessSelection l) l := by
  unfold weaknessSelection
  split_ifs
  · exact List.take_sublist 2 l
  · exact List.filter_sublist l

/-- With at least two rows the strength selection holds at least two rows. -/
lemma strengthSelection_two_le (l : List CompetencyScore) (h : 2 ≤ l.length) :
    2 ≤ (strengthSelection l).length := by
  unfold strengthSelection
  split_ifs with hf
  · rw [List.length_take]
    omega
  · omega

/-- With at least two rows the weakness selection holds at least two rows. -/
lemma weaknessSelection_two_le (l : List CompetencyScore) (h : 2 ≤ l.length) :
    2 ≤ (weaknessSelection l).length := by
  unfold weaknessSelection
  split_ifs with hf
  · rw [List.length_take]
    omega
  · omega

/-- The ids of the first two rows of a selection out of a base list with
duplicate-free ids: duplicate-free, exactly two, all ids of the base. -/
lemma sel_take_ids_spec (base sel : List CompetencyScore)
    (hsub : List.Sublist sel base) (hlen2 : 2 ≤ sel.length)
    (hnd : (base.map (fun c => c.id)).Nodup) :
    ((sel.take 2).map (fun c => c.id)).Nodup ∧
    ((sel.take 2).map (fun c => c.id)).length = 2 ∧
    ∀ x ∈ (sel.take 2).map (fun c => c.id), x ∈ base.map (fun c => c.id) := by
  have h1 : List.Sublist (sel.take 2) base := (List.take_sublist 2 sel).trans hsub
  have h2 : List.Sublist ((sel.take 2).map (fun c => c.id))
      (base.map (fun c => c.id)) := h1.map _
  refine ⟨List.Nodup.sublist h2 hnd, ?_, fun x hx => h2.subset hx⟩
  rw [List.length_map, List.length_take]
  omega

/-- Unfolding of identify_strengths_weaknesses on a nonempty input. -/
lemma identify_eq (comp_scores : List CompetencyScore)
    (h : comp_scores.isEmpty = false) :
    identify_strengths_weaknesses comp_scores =
      (comp_scores.insertionSort pctDescLE).map (fun c =>
        { c with
            is_strength := decide (c.id ∈
              ((strengthSelection (comp_scores.insertionSort pctDescLE)).take 2).map
                (fun c => c.id)),
            is_weakness := decide (c.id ∈
              ((weaknessSelection
                  ((comp_scores.insertionSort pctDescLE).insertionSort pctAscLE)).take 2).map
                (fun c => c.id)) }) := by
  unfold identify_strengths_weaknesses
  rw [if_neg (by simp [h])]

/-- Counting the strength flags the final map sets. -/
lemma countP_strength_map (s : List CompetencyScore) (S T : List Nat)
    (hnd : (s.map (fun c => c.id)).Nodup)
    (hS : S.Nodup) (hsub : ∀ x ∈ S, x ∈ s.map (fun c => c.id)) :
    List.countP (fun c => c.is_strength)
      (s.map (fun c => { c with is_strength := decide (c.id ∈ S),
                                is_weakness := decide (c.id ∈ T) })) = S.length := by
  have key0 : List.countP (fun c => c.is_strength)
      (s.map (fun c => { c with is_strength := decide (c.id ∈ S),
                                is_weakness := decide (c.id ∈ T) })) =
      List.countP (fun c => decide (c.id ∈ S)) s := List.countP_map _ _ _
  have key2 : List.countP (fun x => decide (x ∈ S)) (s.map (fun c => c.id)) =
      List.countP (fun c => decide (c.id ∈ S)) s := List.countP_map _ _ _
  rw [key0, ← key2]
  exact countP_mem_ids hnd hS hsub

/-- Counting the weakness flags the final map sets. -/
lemma countP_weakness_map (s : List CompetencyScore) (S T : List Nat)
    (hnd : (s.map (fun c => c.id)).Nodup)
    (hT : T.Nodup) (hsub : ∀ x ∈ T, x ∈ s.map (fun c => c.id)) :
    List.countP (fun c => c.is_weakness)
      (s.map (fun c => { c with is_strength := decide (c.id ∈ S),
                                is_weakness := decide (c.id ∈ T) })) = T.length := by
  have key0 : List.countP (fun c => c.is_weakness)
      (s.map (fun c => { c with is_strength := decide (c.id ∈ S),
                                is_weakness := decide (c.id ∈ T) })) =
      List.countP (fun c => decide (c.id ∈ T)) s := List.countP_map _ _ _
  have key2 : List.countP (fun x => decide (x ∈ T)) (s.map (fun c => c.id)) =
      List.countP (fun c => decide (c.id ∈ T)) s := List.countP_map _ _ _
  rw [key0, ← key2]
  exact countP_mem_ids hnd hT hsub

/-- Claim C1: on an input of at least two CompetencyScore rows with distinct
primary keys, identify_strengths_weaknesses leaves exactly two rows flagged
strength and exactly two rows flagged weakness, the fallbacks covering the
degenerate inputs where the thresholds select fewer than two candidates. -/
theorem C1_exactly_two_flags (comp_scores : List CompetencyScore)
    (hlen : 2 ≤ comp_scores.length)
    (hids : (comp_scores.map (fun c => c.id)).Nodup) :
    (identify_strengths_weaknesses comp_scores).countP (fun c => c.is_strength) = 2 ∧
    (identify_strengths_weaknesses comp_scores).countP (fun c => c.is_weakness) = 2 := by
  have hne : comp_scores.isEmpty = false := by
    cases comp_scores with
    | nil => simp at hlen
    | cons a l => rfl
  have hperm : (comp_scores.insertionSort pctDescLE).Perm comp_scores :=
    List.perm_insertionSort pctDescLE comp_scores
  have hbperm : ((comp_scores.insertionSort pctDescLE).insertionSort pctAscLE).Perm
      (comp_scores.insertionSort pctDescLE) :=
    List.perm_insertionSort pctAscLE (comp_scores.insertionSort pctDescLE)
  have hslen : (comp_scores.insertionSort pctDescLE).length = comp_scores.length :=
    hperm.length_eq
  have hblen : ((comp_scores.insertionSort pctDescLE).insertionSort pctAscLE).length =
      comp_scores.length := hbperm.length_eq.trans hslen
  have hsids : ((comp_scores.insertionSort pctDescLE).map (fun c => c.id)).Nodup :=
    ((hperm.map (fun c => c.id)).nodup_iff).mpr hids
  have hbids : (((comp_scores.insertionSort pctDescLE).insertionSort pctAscLE).map
      (fun c => c.id)).Nodup :=
    ((hbperm.map (fun c => c.id)).nodup_iff).mpr hsids
  obtain ⟨hSnd, hSlen, hSsub⟩ := sel_take_ids_spec (comp_scores.insertionSort pctDescLE)
    (strengthSelection (comp_scores.insertionSort pctDescLE))
    (strengthSelection_sublist _)
    (strengthSelection_two_le _ (by omega)) hsids
  obtain ⟨hTnd, hTlen, hTsub⟩ := sel_take_ids_spec
    ((comp_scores.insertionSort pctDescLE).insertionSort pctAscLE)
    (weaknessSelection ((comp_scores.insertionSort pctDescLE).insertionSort pctAscLE))
    (weaknessSelection_sublist _)
    (weaknessSelection_two_le _ (by omega)) hbids
  have hTsub' : ∀ x ∈ ((weaknessSelection
      ((comp_scores.insertionSort pctDescLE).insertionSort pctAscLE)).take 2).map
        (fun c => c.id),
      x ∈ (comp_scores.insertionSort pctDescLE).map (fun c => c.id) :=
    fun x hx => ((hbperm.map (fun c => c.id)).mem_iff).mp (hTsub x hx)
  rw [identify_eq comp_scores hne]
  constructor
  · exact (countP_strength_map _ _ _ hsids hSnd hSsub).trans hSlen
  · exact (countP_weakness_map _ _ _ hsids hTnd hTsub').trans hTlen

/-- All-strong input of five rows, every percentage at least 75. -/
def strongRows : List CompetencyScore :=
  [⟨1, "critical_thinking", 0, 20, 80, "proficient", false, false⟩,
   ⟨2, "communication", 0, 10, 90, "advanced", false, false⟩,
   ⟨3, "adaptability", 0, 2, 85, "advanced", false, false⟩,
   ⟨4, "basic_engineering", 0, 25, 75, "proficient", false, false⟩,
   ⟨5, "technical", 0, 48, 76, "proficient", false, false⟩]

/-- Claim C1 witness: the exactly-two statement at a degenerate input where
every percentage is at least 75, so the weakness fallback triggers. -/
theorem C1_exactly_two_flags_witness :
    2 ≤ strongRows.length ∧ (strongRows.map (fun c => c.id)).Nodup ∧
    ((identify_strengths_weaknesses strongRows).countP (fun c => c.is_strength) = 2 ∧
     (identify_strengths_weaknesses strongRows).countP (fun c => c.is_weakness) = 2) :=
  ⟨by decide, by decide, C1_exactly_two_flags strongRows (by decide) (by decide)⟩

/-- Three rows, percentages 70, 65 and 60: no row reaches 75 and none is
below 60, so both fallbacks trigger and the middle row lands in both
selections. -/
def overlapRows : List CompetencyScore :=
  [⟨1, "critical_thinking", 0, 20, 70, "proficient", false, false⟩,
   ⟨2, "communication", 0, 10, 65, "developing", false, false⟩,
   ⟨3, "adaptability", 0, 2, 60, "developing", false, false⟩]

/-- Claim C10 counterexample: an input of three rows after which one row is
flagged both strength and weakness, refuting the statement that three or
more records rule the overlap out. -/
theorem C10_counterexample :
    3 ≤ overlapRows.length ∧
    ∃ c ∈ identify_strengths_weaknesses overlapRows,
      c.is_strength = true ∧ c.is_weakness = true := by decide

/-- Claim C10 (amended): a row can carry both flags even with three or more
records; what rules the overlap out is both thresholds holding at least two
candidates, for then the strength rows all sit at 75 or above while the
weakness rows sit below 60.  Stated over inputs with distinct primary
keys. -/
theorem C10_no_overlap_without_fallback (comp_scores : List CompetencyScore)
    (hids : (comp_scores.map (fun c => c.id)).Nodup)
    (hstr : 2 ≤ (comp_scores.filter (fun c => 75 ≤ c.percentage)).length)
    (hweak : 2 ≤ (comp_scores.filter (fun c => c.percentage < 60)).length) :
    ∀ c ∈ identify_strengths_weaknesses comp_scores,
      ¬ (c.is_strength = true ∧ c.is_weakness = true) := by
  have hlen : 2 ≤ comp_scores.length :=
    le_trans hstr (List.length_filter_le _ _)
  have hne : comp_scores.isEmpty = false := by
    cases comp_scores with
    | nil => simp at hlen
    | cons a l => rfl
  have hperm : (comp_scores.insertionSort pctDescLE).Perm comp_scores :=
    List.perm_insertionSort pctDescLE comp_scores
  have hbperm : ((comp_scores.insertionSort pctDescLE).insertionSort pctAscLE).Perm
      (comp_scores.insertionSort pctDescLE) :=
    List.perm_insertionSort pctAscLE (comp_scores.insertionSort pctDescLE)
  have hsids : ((comp_scores.insertionSort pctDescLE).map (fun c => c.id)).Nodup :=
    ((hperm.map (fun c => c.id)).nodup_iff).mpr hids
  have hstrs : ¬ ((comp_scores.insertionSort pctDescLE).filter
      (fun c => 75 ≤ c.percentage)).length < 2 := by
    rw [(hperm.filter _).length_eq]
    omega
  have hweakb : ¬ (((comp_scores.insertionSort pctDescLE).insertionSort pctAscLE).filter
      (fun c => c.percentage < 60)).length < 2 := by
    rw [((hbperm.trans hperm).filter _).length_eq]
    omega
  have hsel : strengthSelection (comp_scores.insertionSort pctDescLE) =
      (comp_scores.insertionSort pctDescLE).filter (fun c => 75 ≤ c.percentage) := by
    unfold strengthSelection
    rw [if_neg hstrs]
  have hwsel : weaknessSelection ((comp_scores.insertionSort pctDescLE).insertionSort pctAscLE) =
      ((comp_scores.insertionSort pctDescLE).insertionSort pctAscLE).filter
        (fun c => c.percentage < 60) := by
    unfold weaknessSelection
    rw [if_neg hweakb]
  intro c hc
  rw [identify_eq comp_scores hne] at hc
  obtain ⟨c0, _, rfl⟩ := List.mem_map.mp hc
  rintro ⟨h1, h2⟩
  have hidS : c0.id ∈ ((strengthSelection (comp_scores.insertionSort pctDescLE)).take 2).map
      (fun c => c.id) := of_decide_eq_true h1
  have hidT : c0.id ∈ ((weaknessSelection
      ((comp_scores.insertionSort pctDescLE).insertionSort pctAscLE)).take 2).map
      (fun c => c.id) := of_decide_eq_true h2
  obtain ⟨a, ha, haid⟩ := List.mem_map.mp hidS
  obtain ⟨w, hw, hwid⟩ := List.mem_map.mp hidT
  have ha' := (List.take_sublist 2 _).subset ha
  rw [hsel] at ha'
  have haf := List.mem_filter.mp ha'
  have hapct : 75 ≤ a.percentage := of_decide_eq_true haf.2
  have hw' := (List.take_sublist 2 _).subset hw
  rw [hwsel] at hw'
  have hwf := List.mem_filter.mp hw'
  have hwpct : w.percentage < 60 := of_decide_eq_true hwf.2
  have hwmem : w ∈ comp_scores.insertionSort pctDescLE := hbperm.subset hwf.1
  have haw : a = w :=
    List.inj_on_of_nodup_map hsids haf.1 hwmem (haid.trans hwid.symm)
  rw [haw] at hapct
  linarith

/-- Claim C10 witness: the amended statement at a five-row input where both
thresholds hold two candidates, so no fallback triggers. -/
def splitRows : List CompetencyScore :=
  [⟨1, "critical_thinking", 0, 20, 80, "proficient", false, false⟩,
   ⟨2, "communication", 0, 10, 90, "advanced", false, false⟩,
   ⟨3, "adaptability", 0, 2, 65, "developing", false, false⟩,
   ⟨4, "basic_engineering", 0, 25, 40, "emerging", false, false⟩,
   ⟨5, "technical", 0, 48, 30, "emerging", false, false⟩]

/-- Claim C10 witness: no row of splitRows ends up with both flags. -/
theorem C10_no_overlap_without_fallback_witness :
    2 ≤ (splitRows.filter (fun c => 75 ≤ c.percentage)).length ∧
    2 ≤ (splitRows.filter (fun c => c.percentage < 60)).length ∧
    ∀ c ∈ identify_strengths_weaknesses splitRows,
      ¬ (c.is_strength = true ∧ c.is_weakness = true) :=
  ⟨by decide, by decide,
    C10_no_overlap_without_fallback splitRows (by decide) (by decide) (by decide)⟩
